import Mathlib

/-!
Verification development for the import-fixing script
`backend/fix_exchanges_imports.py` of BotCriptoFy2.

The script is modelled shallowly:

* file contents are `List Char`;
* the four `re.sub` calls of `fix_file` are modelled by a leftmost,
  non-overlapping scanner `scanA` instantiated with one deterministic
  matcher per regex (the patterns are concrete enough that greedy
  backtracking collapses to a unique candidate match at each position);
* the filesystem is a map `String → Option (List Char)`;
* `fix_file`, `fix_special_cases` and the `main` driver are modelled as
  pure state transformers, with booleans standing for the messages the
  script prints.
-/

namespace FixImports

/-- File system: maps a path to the content of the file stored there,
`none` when no file exists at that path (models `os.path.exists`). -/
def Fs : Type := String → Option (List Char)

/-- Point update of a file system, models one `open(path, 'w').write`. -/
def upd (fs : Fs) (p : String) (v : List Char) : Fs :=
  fun q => if q = p then some v else fs q

/-- `stripPre pre s` returns `some r` with `s = pre ++ r` when `pre` is a
prefix of `s`, and `none` otherwise. -/
def stripPre : List Char → List Char → Option (List Char)
  | [], s => some s
  | _ :: _, [] => none
  | p :: ps, c :: cs => if p = c then stripPre ps cs else none

/-- `begWith pre s` tests whether `pre` is a prefix of `s`. -/
def begWith (pre s : List Char) : Bool :=
  (stripPre pre s).isSome

/-- `occursIn pat s` tests whether `pat` occurs as a contiguous substring
of `s` (models Python's `pat in s`). -/
def occursIn (pat : List Char) : List Char → Bool
  | [] => begWith pat []
  | c :: t => begWith pat (c :: t) || occursIn pat t

/-- Number of occurrences of `pat` starting at each position of `s`
(overlapping occurrences are all counted; used only to state facts about
concrete outputs). -/
def countOcc (pat : List Char) : List Char → Nat
  | [] => if begWith pat [] then 1 else 0
  | c :: t => (if begWith pat (c :: t) then 1 else 0) + countOcc pat t

/-- Literal opening of pattern 1, `import \x7b ([^}]+) \x7d from ...`. -/
def lit1A : List Char := "import \x7b ".data

/-- Literal tail shared by patterns 1 and 2. -/
def lit1B : List Char := "\x7d from \x27@/modules/exchanges\x27;".data

/-- Literal opening of pattern 2 (`import type`). -/
def lit2A : List Char := "import type \x7b ".data

/-- The explanatory line each replacement prepends, plus the `// ` that
comments out the original statement. -/
def nlHead : List Char := "// Module not yet implemented\n// ".data

/-- Matcher for pattern 1,
`import \x7b ([^}]+) \x7d from '@/modules/exchanges';`.
On a match at the head of `s` it returns the replacement text produced by
`re.sub` together with the remainder of `s` after the match.  The greedy
class `[^}]+` cannot cross a `\x7d`, so the only candidate capture is the
run of non-`\x7d` characters up to the first `\x7d`, provided that run ends
in the mandatory space and is otherwise nonempty. -/
def match1 (s : List Char) : Option (List Char × List Char) :=
  match stripPre lit1A s with
  | none => none
  | some r0 =>
    let t := r0.takeWhile (fun c => c ≠ '\x7d')
    if 2 ≤ t.length && (t.getLast? == some ' ') then
      match stripPre lit1B (r0.dropWhile (fun c => c ≠ '\x7d')) with
      | none => none
      | some rest => some (nlHead ++ lit1A ++ t ++ lit1B, rest)
    else none

/-- Matcher for pattern 2,
`import type \x7b ([^}]+) \x7d from '@/modules/exchanges';`. -/
def match2 (s : List Char) : Option (List Char × List Char) :=
  match stripPre lit2A s with
  | none => none
  | some r0 =>
    let t := r0.takeWhile (fun c => c ≠ '\x7d')
    if 2 ≤ t.length && (t.getLast? == some ' ') then
      match stripPre lit1B (r0.dropWhile (fun c => c ≠ '\x7d')) with
      | none => none
      | some rest => some (nlHead ++ lit2A ++ t ++ lit1B, rest)
    else none

/-- Literal opening of pattern 3 (the regex `'\.\.` keeps exactly two
literal dots after the quote). -/
def lit3A : List Char := "import \x7b ExchangeService \x7d from \x27..".data

/-- Literal tail of pattern 3. -/
def lit3B : List Char := "exchanges/services/exchange.service\x27;".data

/-- Fixed replacement of pattern 3: the path is rewritten to `../../`
whatever the matched depth was. -/
def repl3 : List Char :=
  "// Module not yet implemented\n// import \x7b ExchangeService \x7d from \x27../../exchanges/services/exchange.service\x27;".data

/-- Literal opening of pattern 4. -/
def lit4A : List Char := "import \x7b exchangeConnections \x7d from \x27..".data

/-- Literal tail of pattern 4. -/
def lit4B : List Char := "exchanges/schema/exchanges.schema\x27;".data

/-- Fixed replacement of pattern 4. -/
def repl4 : List Char :=
  "// Module not yet implemented\n// import \x7b exchangeConnections \x7d from \x27../../exchanges/schema/exchanges.schema\x27;".data

/-- `lastFit pat r0 i` searches `i, i-1, ..., 0` for the largest index at
which `pat` is a prefix of `r0.drop j`; this realises the greedy `.*` of
patterns 3 and 4. -/
def lastFit (pat r0 : List Char) : Nat → Option Nat
  | 0 => if begWith pat r0 then some 0 else none
  | i + 1 =>
    if begWith pat (r0.drop (i + 1)) then some (i + 1) else lastFit pat r0 i

/-- Matcher for pattern 3.  `.` does not match a newline, so the greedy
`.*` ranges over the current line only; the tail literal contains no
newline, hence trying every start index up to the end of the line against
the full remainder is faithful. -/
def match3 (s : List Char) : Option (List Char × List Char) :=
  match stripPre lit3A s with
  | none => none
  | some r0 =>
    let line := r0.takeWhile (fun c => c ≠ '\n')
    match lastFit lit3B r0 line.length with
    | none => none
    | some i => some (repl3, r0.drop (i + lit3B.length))

/-- Matcher for pattern 4. -/
def match4 (s : List Char) : Option (List Char × List Char) :=
  match stripPre lit4A s with
  | none => none
  | some r0 =>
    let line := r0.takeWhile (fun c => c ≠ '\n')
    match lastFit lit4B r0 line.length with
    | none => none
    | some i => some (repl4, r0.drop (i + lit4B.length))

/-- Leftmost non-overlapping substitution scanner, the semantics of
`re.sub`: at each position try the matcher; on a match emit the
replacement and resume scanning after the match (the replacement itself is
not rescanned); otherwise copy one character.  Fuelled to stay
structural; every matcher below consumes at least one character, so fuel
equal to the input length suffices. -/
def scanA (m : List Char → Option (List Char × List Char)) :
    Nat → List Char → List Char
  | 0, s => s
  | _ + 1, [] => []
  | fuel + 1, c :: t =>
    match m (c :: t) with
    | some (r, rest) => r ++ scanA m fuel rest
    | none => c :: scanA m fuel t

/-- `anyMatch m s` is true when the matcher fires at some position of `s`
(the position scan of `re.search`). -/
def anyMatch (m : List Char → Option (List Char × List Char)) :
    List Char → Bool
  | [] => false
  | c :: t => (m (c :: t)).isSome || anyMatch m t

/-- One full `re.sub` pass with matcher `m`. -/
def subst (m : List Char → Option (List Char × List Char))
    (s : List Char) : List Char :=
  scanA m s.length s

/-- The four substitutions of `fix_file`, in program order. -/
def applySubs (s : List Char) : List Char :=
  subst match4 (subst match3 (subst match2 (subst match1 s)))

/-- Whether pattern `i` fires anywhere in `s`. -/
def hasM1 (s : List Char) : Bool := anyMatch match1 s

/-- Whether pattern 2 fires anywhere in `s`. -/
def hasM2 (s : List Char) : Bool := anyMatch match2 s

/-- Whether pattern 3 fires anywhere in `s`. -/
def hasM3 (s : List Char) : Bool := anyMatch match3 s

/-- Whether pattern 4 fires anywhere in `s`. -/
def hasM4 (s : List Char) : Bool := anyMatch match4 s

/-- At least one of the four patterns matches the content. -/
def hasAny (s : List Char) : Bool :=
  hasM1 s || hasM2 s || hasM3 s || hasM4 s

/-- The three per-file reports of `fix_file`. -/
inductive Msg : Type
  | notFound
  | fixedBak
  | noChanges
deriving DecidableEq, Repr

/-- Model of `fix_file`: missing file reports and skips; otherwise the
four substitutions run and, only when the text changed, the original
content is written to `path + ".bak"` and the new text to `path`. -/
def fixFile (fs : Fs) (p : String) : Fs × Bool × Msg :=
  match fs p with
  | none => (fs, false, Msg.notFound)
  | some c =>
    let c2 := applySubs c
    if c2 = c then (fs, false, Msg.noChanges)
    else (upd (upd fs (p ++ ".bak") c) p c2, true, Msg.fixedBak)

/-- Number of newline characters in a content string. -/
def countNl (s : List Char) : Nat := s.countP (fun c => c == '\n')

/-- The invariant each of the four matchers satisfies: a match strictly
shrinks the remainder, and replacement plus remainder together hold
exactly one newline more than the input (each replacement inserts the
one-newline comment prefix and otherwise preserves newline count). -/
def MSpec (m : List Char → Option (List Char × List Char)) : Prop :=
  ∀ s r rest, m s = some (r, rest) →
    rest.length < s.length ∧ countNl r + countNl rest = countNl s + 1

/-- `litClash lit d` holds when `lit` and `d` disagree at some position
that both of them cover; then `lit` is a prefix of no extension of `d`. -/
def litClash : List Char → List Char → Bool
  | [], _ => false
  | _, [] => false
  | a :: as, b :: bs => (a ≠ b) || litClash as bs

/-- `allClash lit A` holds when `lit` clashes with every nonempty suffix
of `A`: no occurrence of `lit` can start inside `A`, however `A` is
extended on the right. -/
def allClash (lit : List Char) : List Char → Bool
  | [] => true
  | c :: t => litClash lit (c :: t) && allClash lit t

/-- A one-line test file whose only content is a pattern-1 import. -/
def ex1 : List Char :=
  "import \x7b Foo \x7d from \x27@/modules/exchanges\x27;".data

/-- `ex1` after one run of the four substitutions. -/
def ex1out : List Char :=
  "// Module not yet implemented\n// import \x7b Foo \x7d from \x27@/modules/exchanges\x27;".data

/-- `ex1` after two runs: the unanchored regex re-matches inside the
commented line and prefixes it again. -/
def ex1out2 : List Char :=
  "// Module not yet implemented\n// // Module not yet implemented\n// import \x7b Foo \x7d from \x27@/modules/exchanges\x27;".data

/-- Path of the test file used in concrete scenarios. -/
def pathEx : String := "a.ts"

/-- File system holding only the one-line test file. -/
def fsEx : Fs := fun q => if q = pathEx then some ex1 else none

/-- The file system after a first run of `fix_file` on the test file. -/
def fsEx1 : Fs := (fixFile fsEx pathEx).1

/-- True when the matcher fires immediately after some newline of `s`. -/
def activeAfterNl (m : List Char → Option (List Char × List Char)) :
    List Char → Bool
  | [] => false
  | c :: t => (if c = '\n' then (m t).isSome else false) || activeAfterNl m t

/-- True when the matcher fires at the start of some line of `s`: such an
occurrence is an active (uncommented) import statement. -/
def lineActive (m : List Char → Option (List Char × List Char))
    (s : List Char) : Bool :=
  (m s).isSome || activeAfterNl m s

/-- The content holds one of the four import statements in active
(line-initial, uncommented) position. -/
def containsActive (s : List Char) : Bool :=
  lineActive match1 s || lineActive match2 s ||
    lineActive match3 s || lineActive match4 s

/-- Adversarial file: a pattern-1 match whose multi-line symbol list
swallows a second import statement. -/
def adv5 : List Char :=
  "import \x7b Q\nimport \x7b Foo, Bar \x7d from \x27@/modules/exchanges\x27;".data

/-- File system holding the adversarial file. -/
def fsAdv : Fs := fun q => if q = pathEx then some adv5 else none

/-- Pattern-3 import with the canonical two directory levels. -/
def in3two : List Char :=
  "import \x7b ExchangeService \x7d from \x27../../exchanges/services/exchange.service\x27;".data

/-- Pattern-3 import three directory levels deep. -/
def in3three : List Char :=
  "import \x7b ExchangeService \x7d from \x27../../../exchanges/services/exchange.service\x27;".data

/-- File system holding the canonical two-level pattern-3 file. -/
def fs3 : Fs := fun q => if q = pathEx then some in3two else none

/-- The empty file system. -/
def fsEmpty : Fs := fun _ => none

/-- A file none of the import patterns matches. -/
def exPlain : List Char := "const x = 1;\nexport default x;\n".data

/-- File system holding only the unmatched file. -/
def fsPlain : Fs := fun q => if q = pathEx then some exPlain else none

/-- Tail of `lit1B` after its leading closing brace. -/
def lit1Bt : List Char := " from \x27@/modules/exchanges\x27;".data

/-- The captured symbol list of the C5 scenario, trailing space included. -/
def cap5 : List Char := "Foo, Bar ".data

/-- The import statement of the C5 scenario. -/
def stmt5 : List Char :=
  "import \x7b Foo, Bar \x7d from \x27@/modules/exchanges\x27;".data

/-- The text `fix_file` substitutes for `stmt5`: explanatory comment plus
the statement commented out, symbol list `Foo, Bar` verbatim. -/
def pre5 : List Char :=
  "// Module not yet implemented\n// import \x7b Foo, Bar \x7d from \x27@/modules/exchanges\x27;".data

/-- First symbol-list line of the C10 witness. -/
def cap10a : List Char := "Foo,".data

/-- Continuation line of the C10 witness. -/
def cap10b : List Char := "  Bar".data

/-- Fuelled scanner for Python's `str.replace`: at each position, if the
(nonempty) pattern starts here, emit the replacement and skip past the
pattern, else copy one character.  All occurrences are replaced, left to
right, non-overlapping, and replacements are not rescanned. -/
def replaceAll (pat rep : List Char) : Nat → List Char → List Char
  | 0, s => s
  | _ + 1, [] => []
  | fuel + 1, c :: t =>
    if !pat.isEmpty && begWith pat (c :: t) then
      rep ++ replaceAll pat rep fuel ((c :: t).drop pat.length)
    else c :: replaceAll pat rep fuel t

/-- `content.replace(pat, rep)` of the script (patterns are nonempty). -/
def strRepl (pat rep s : List Char) : List Char :=
  replaceAll pat rep s.length s

/-- Path of `market-data-websocket-manager.ts`, target of patches A and C. -/
def pathMD : String :=
  "/Users/myminimac/Desenvolvimento/BotCriptoFy2/backend/src/modules/market-data/websocket/market-data-websocket-manager.ts"

/-- Path of `pipeline.ts`, target of patch B. -/
def pathPL : String :=
  "/Users/myminimac/Desenvolvimento/BotCriptoFy2/backend/src/modules/market-data/websocket/pipeline.ts"

/-- Patch A guard, presence side. -/
def gA1 : List Char := "import type \x7b IExchangeAdapter".data

/-- Patch A guard, absence side. -/
def gA2 : List Char := "ConnectionConfig, ExchangeId".data

/-- The types-import line patch A replaces. -/
def oldA : List Char :=
  "import type \x7b IExchangeAdapter, SubscriptionRequest, ConnectionStatus, OrderBook, Trade, Ticker, Candle, ExchangeEventName, ExchangeEventListener, ConnectionMetrics \x7d from \x27./types\x27;".data

/-- The extended types-import line patch A writes. -/
def newA : List Char :=
  "import type \x7b IExchangeAdapter, SubscriptionRequest, ConnectionStatus, OrderBook, Trade, Ticker, Candle, ExchangeEventName, ExchangeEventListener, ConnectionMetrics, ConnectionConfig, ExchangeId \x7d from \x27./types\x27;".data

/-- Patch B guard, presence side: the commented-out import marker. -/
def gB1 : List Char :=
  "// import \x7b getDefaultWebSocketConfig \x7d from \x27@/modules/exchanges\x27;".data

/-- Patch B guard, absence side: the stub definition's head. -/
def gB2 : List Char := "function getDefaultWebSocketConfig".data

/-- Patch B replacement: the marker followed by the stub function. -/
def newB : List Char :=
  "// import \x7b getDefaultWebSocketConfig \x7d from \x27@/modules/exchanges\x27;\n\n// Temporary stub until exchanges module is implemented\nfunction getDefaultWebSocketConfig(exchangeId: ExchangeId): ConnectionConfig \x7b\n  throw new Error(\x60Exchanges module not yet implemented. Cannot get config for $\x7bexchangeId\x7d\x60);\n\x7d".data

/-- Patch C guard: presence of the delegating call. -/
def gC : List Char := "return createWebSocketAdapter(exchangeId, config);".data

/-- The two-line call pattern patch C replaces (with its method header). -/
def oldC : List Char :=
  "  private createAdapter(exchangeId: ExchangeId, config: ConnectionConfig): IExchangeAdapter \x7b\n    // Delegate creation to exchanges module to centralize exchange connectivity\n    return createWebSocketAdapter(exchangeId, config);".data

/-- Patch C replacement: throw-stub plus the original call as a trailing
comment. -/
def newC : List Char :=
  "  private createAdapter(exchangeId: ExchangeId, config: ConnectionConfig): IExchangeAdapter \x7b\n    // Delegate creation to exchanges module to centralize exchange connectivity\n    // Module not yet implemented\n    throw new Error(\x60Exchanges module not yet implemented. Cannot create adapter for $\x7bexchangeId\x7d\x60);\n    // return createWebSocketAdapter(exchangeId, config);".data

/-- Fix 1 of `fix_special_cases`: extend the types import of
`market-data-websocket-manager.ts`; guarded by presence of the marker
symbol and absence of the two added symbols.  The boolean reports whether
the file was written (and the success message printed). -/
def patchA (fs : Fs) : Fs × Bool :=
  match fs pathMD with
  | none => (fs, false)
  | some c =>
    if occursIn gA1 c && !occursIn gA2 c then
      (upd fs pathMD (strRepl oldA newA c), true)
    else (fs, false)

/-- Fix 2: insert the `getDefaultWebSocketConfig` stub into `pipeline.ts`
after the commented-out import; guarded by presence of the marker and
absence of the stub. -/
def patchB (fs : Fs) : Fs × Bool :=
  match fs pathPL with
  | none => (fs, false)
  | some c =>
    if occursIn gB1 c && !occursIn gB2 c then
      (upd fs pathPL (strRepl gB1 newB c), true)
    else (fs, false)

/-- Fix 3: replace the delegating `createWebSocketAdapter` call with a
throw-stub; guarded only by presence of the call text (which the
replacement keeps, commented out). -/
def patchC (fs : Fs) : Fs × Bool :=
  match fs pathMD with
  | none => (fs, false)
  | some c =>
    if occursIn gC c then (upd fs pathMD (strRepl oldC newC c), true)
    else (fs, false)

/-- `fix_special_cases`: the three patches in program order; the booleans
report which patch branches wrote their file and printed success. -/
def fixSpecialCases (fs : Fs) : Fs × (Bool × Bool × Bool) :=
  let a := patchA fs
  let b := patchB a.1
  let c := patchC b.1
  (c.1, (a.2, b.2, c.2))

/-- Pre-patch content of the manager file for the patch-C scenario: the
delegating method followed by its closing brace. -/
def c9md0 : List Char := oldC ++ "\n  \x7d".data

/-- File system for the C9 scenario. -/
def fsC9 : Fs := fun q => if q = pathMD then some c9md0 else none

/-- The manager file after patch C. -/
def c9md1 : List Char := newC ++ "\n  \x7d".data

/-- Pre-patch content of the manager file for the full special-case
scenario: the canonical types-import line and the delegating method. -/
def c4md0 : List Char := oldA ++ "\n".data ++ oldC ++ "\n  \x7d".data

/-- Pre-patch content of `pipeline.ts`: the commented-out import marker. -/
def c4pl0 : List Char := gB1 ++ "\n".data

/-- File system for the full special-case scenario. -/
def fsC4 : Fs :=
  fun q => if q = pathMD then some c4md0
    else if q = pathPL then some c4pl0 else none

/-- Manager file after a successful first run (patches A and C applied). -/
def c4md1 : List Char := newA ++ "\n".data ++ newC ++ "\n  \x7d".data

/-- Pipeline file after a successful first run (patch B applied). -/
def c4pl1 : List Char := newB ++ "\n".data

/-- File system after the first run of `fix_special_cases`. -/
def fsC4a : Fs := (fixSpecialCases fsC4).1

/-- The fixed, hard-coded file list of the script, in order. -/
def FILES_TO_FIX : List String :=
  [ "/Users/myminimac/Desenvolvimento/BotCriptoFy2/backend/src/modules/market-data/websocket/market-data-websocket-manager.ts"
  , "/Users/myminimac/Desenvolvimento/BotCriptoFy2/backend/src/modules/market-data/websocket/pipeline.ts"
  , "/Users/myminimac/Desenvolvimento/BotCriptoFy2/backend/src/modules/market-data/websocket/websocket-manager.ts"
  , "/Users/myminimac/Desenvolvimento/BotCriptoFy2/backend/src/modules/market-data/services/orderbook.service.ts"
  , "/Users/myminimac/Desenvolvimento/BotCriptoFy2/backend/src/modules/market-data/services/ohlcv.service.ts"
  , "/Users/myminimac/Desenvolvimento/BotCriptoFy2/backend/src/modules/market-data/services/trades.service.ts"
  , "/Users/myminimac/Desenvolvimento/BotCriptoFy2/backend/src/modules/market-data/services/ticker.service.ts"
  , "/Users/myminimac/Desenvolvimento/BotCriptoFy2/backend/src/modules/order-book/services/order-book-snapshot.service.ts"
  , "/Users/myminimac/Desenvolvimento/BotCriptoFy2/backend/src/modules/social-trading/services/copy-trading.service.ts"
  , "/Users/myminimac/Desenvolvimento/BotCriptoFy2/backend/src/modules/orders/services/position.service.ts"
  , "/Users/myminimac/Desenvolvimento/BotCriptoFy2/backend/src/modules/orders/services/order.service.ts" ]

/-- The bulk pass of `main`: run `fix_file` on each path in order,
counting the files for which it returned `True`.  A missing file only
yields `False` for that path; the fold continues over the rest. -/
def runBulk : Fs → List String → Fs × Nat
  | fs, [] => (fs, 0)
  | fs, p :: L =>
    let r := fixFile fs p
    let k := runBulk r.1 L
    (k.1, (if r.2.1 then 1 else 0) + k.2)

/-- `main`: the bulk pass over the fixed list, then `fix_special_cases`,
then the summary count (the second component is the number printed in the
final banner). -/
def runMain (fs : Fs) : Fs × Nat :=
  let b := runBulk fs FILES_TO_FIX
  ((fixSpecialCases b.1).1, b.2)

example : occursIn "bc".data "abcd".data = true := by decide

example :
    applySubs "import \x7b Foo \x7d from \x27@/modules/exchanges\x27;".data =
      "// Module not yet implemented\n// import \x7b Foo \x7d from \x27@/modules/exchanges\x27;".data := by
  decide

example :
    applySubs "import \x7b ExchangeService \x7d from \x27../../exchanges/services/exchange.service\x27;".data
      = repl3 := by decide

theorem stripPre_eq :
    ∀ p s r : List Char, stripPre p s = some r → s = p ++ r := by
  intro p
  induction p with
  | nil => intro s r h; simp [stripPre] at h; simpa using h
  | cons a as ih =>
    intro s r h
    cases s with
    | nil => simp [stripPre] at h
    | cons c cs =>
      by_cases hac : a = c
      · subst hac
        simp only [stripPre, if_pos rfl] at h
        simpa using congrArg (a :: ·) (ih cs r h)
      · simp [stripPre, hac] at h

theorem stripPre_self : ∀ p r : List Char, stripPre p (p ++ r) = some r := by
  intro p
  induction p with
  | nil => intro r; rfl
  | cons a as ih => intro r; simp [stripPre, ih]

theorem scanA_fuel (m : List Char → Option (List Char × List Char))
    (hm : ∀ s r rest, m s = some (r, rest) → rest.length < s.length) :
    ∀ f g s, s.length ≤ f → s.length ≤ g → scanA m f s = scanA m g s := by
  intro f
  induction f with
  | zero =>
    intro g s hf _
    have : s = [] := List.length_eq_zero.mp (Nat.le_zero.mp hf)
    subst this
    cases g <;> rfl
  | succ f ih =>
    intro g s hf hg
    cases s with
    | nil => cases g <;> rfl
    | cons c t =>
      cases g with
      | zero => simp at hg
      | succ g =>
        cases hmc : m (c :: t) with
        | none =>
          have h1 : t.length ≤ f := by simpa using hf
          have h2 : t.length ≤ g := by simpa using hg
          simp only [scanA, hmc]
          rw [ih g t h1 h2]
        | some pr =>
          obtain ⟨r, rest⟩ := pr
          have hlt := hm _ _ _ hmc
          simp only [List.length_cons] at hlt hf hg
          have h1 : rest.length ≤ f := by omega
          have h2 : rest.length ≤ g := by omega
          simp only [scanA, hmc]
          rw [ih g rest h1 h2]

theorem subst_nil (m : List Char → Option (List Char × List Char)) :
    subst m [] = [] := rfl

theorem subst_cons_none
    {m : List Char → Option (List Char × List Char)} {c : Char}
    {t : List Char} (h : m (c :: t) = none) :
    subst m (c :: t) = c :: subst m t := by
  show scanA m (t.length + 1) (c :: t) = c :: scanA m t.length t
  simp only [scanA, h]

theorem subst_cons_some
    {m : List Char → Option (List Char × List Char)}
    (hm : ∀ s r rest, m s = some (r, rest) → rest.length < s.length)
    {s r rest : List Char} (h : m s = some (r, rest)) :
    subst m s = r ++ subst m rest := by
  have hlt := hm _ _ _ h
  cases s with
  | nil => simp at hlt
  | cons c t =>
    show scanA m (t.length + 1) (c :: t) = r ++ scanA m rest.length rest
    simp only [scanA, h]
    congr 1
    exact scanA_fuel m hm t.length rest.length rest
      (by have := hlt; simp at this; omega) (Nat.le_refl _)

theorem subst_id_of_no_match
    {m : List Char → Option (List Char × List Char)} :
    ∀ {s : List Char}, anyMatch m s = false → subst m s = s := by
  intro s
  induction s with
  | nil => intro _; rfl
  | cons c t ih =>
    intro h
    simp only [anyMatch, Bool.or_eq_false_iff] at h
    have h1 : m (c :: t) = none := by
      cases hmc : m (c :: t) with
      | none => rfl
      | some v => rw [hmc] at h; simp at h
    rw [subst_cons_none h1, ih h.2]

theorem countNl_subst_ge {m : List Char → Option (List Char × List Char)}
    (hm : MSpec m) :
    ∀ s : List Char, countNl s ≤ countNl (subst m s) := by
  suffices H : ∀ n, ∀ s : List Char, s.length ≤ n →
      countNl s ≤ countNl (subst m s) from fun s => H s.length s le_rfl
  intro n
  induction n with
  | zero =>
    intro s hs
    have : s = [] := List.length_eq_zero.mp (Nat.le_zero.mp hs)
    subst this; simp [subst_nil]
  | succ n ih =>
    intro s hs
    cases s with
    | nil => simp [subst_nil]
    | cons c t =>
      cases hmc : m (c :: t) with
      | none =>
        rw [subst_cons_none hmc]
        have ht := ih t (by simpa using hs)
        simp only [countNl, List.countP_cons] at ht ⊢
        omega
      | some pr =>
        obtain ⟨r, rest⟩ := pr
        obtain ⟨hlen, hcount⟩ := hm _ _ _ hmc
        rw [subst_cons_some (fun s r rest h => (hm s r rest h).1) hmc]
        simp only [List.length_cons] at hlen hs
        have hrest := ih rest (by omega)
        simp only [countNl, List.countP_append] at hcount ⊢
        simp only [countNl] at hrest
        omega

theorem countNl_subst_gt {m : List Char → Option (List Char × List Char)}
    (hm : MSpec m) :
    ∀ s : List Char, anyMatch m s = true →
      countNl s < countNl (subst m s) := by
  suffices H : ∀ n, ∀ s : List Char, s.length ≤ n → anyMatch m s = true →
      countNl s < countNl (subst m s) from fun s => H s.length s le_rfl
  intro n
  induction n with
  | zero =>
    intro s hs h
    have : s = [] := List.length_eq_zero.mp (Nat.le_zero.mp hs)
    subst this; simp [anyMatch] at h
  | succ n ih =>
    intro s hs h
    cases s with
    | nil => simp [anyMatch] at h
    | cons c t =>
      cases hmc : m (c :: t) with
      | none =>
        rw [subst_cons_none hmc]
        have hat : anyMatch m t = true := by
          simp only [anyMatch, hmc] at h; simpa using h
        have ht := ih t (by simpa using hs) hat
        simp only [countNl, List.countP_cons] at ht ⊢
        omega
      | some pr =>
        obtain ⟨r, rest⟩ := pr
        obtain ⟨hlen, hcount⟩ := hm _ _ _ hmc
        rw [subst_cons_some (fun s r rest h => (hm s r rest h).1) hmc]
        have hrest := countNl_subst_ge hm rest
        simp only [countNl, List.countP_append] at hcount ⊢
        simp only [countNl] at hrest
        omega

theorem countNl_append (a b : List Char) :
    countNl (a ++ b) = countNl a + countNl b := by
  simp [countNl]

theorem countNl_lit1A : countNl lit1A = 0 := by decide

theorem countNl_lit1B : countNl lit1B = 0 := by decide

theorem countNl_lit2A : countNl lit2A = 0 := by decide

theorem countNl_lit3A : countNl lit3A = 0 := by decide

theorem countNl_lit3B : countNl lit3B = 0 := by decide

theorem countNl_lit4A : countNl lit4A = 0 := by decide

theorem countNl_lit4B : countNl lit4B = 0 := by decide

theorem countNl_nlHead : countNl nlHead = 1 := by decide

theorem countNl_repl3 : countNl repl3 = 1 := by decide

theorem countNl_repl4 : countNl repl4 = 1 := by decide

theorem match1_spec : MSpec match1 := by
  intro s r rest h
  simp only [match1] at h
  cases h0 : stripPre lit1A s with
  | none => rw [h0] at h; simp at h
  | some r0 =>
    rw [h0] at h
    simp only at h
    split at h
    case isFalse => simp at h
    case isTrue hc =>
      cases h1 : stripPre lit1B (r0.dropWhile (fun c => c ≠ '\x7d')) with
      | none => rw [h1] at h; simp at h
      | some rest' =>
        rw [h1] at h
        simp only [Option.some.injEq, Prod.mk.injEq] at h
        obtain ⟨hr, hrest⟩ := h
        have e1 : s = lit1A ++ r0 := stripPre_eq _ _ _ h0
        have e3 : r0.dropWhile (fun c => c ≠ '\x7d') = lit1B ++ rest' :=
          stripPre_eq _ _ _ h1
        have hs : s = lit1A ++
            (r0.takeWhile (fun c => c ≠ '\x7d') ++ (lit1B ++ rest)) := by
          rw [e1]
          congr 1
          rw [← hrest, ← e3]
          exact (List.takeWhile_append_dropWhile _ _).symm
        have hcs : countNl s =
            countNl (r0.takeWhile (fun c => c ≠ '\x7d')) + countNl rest := by
          rw [hs]
          simp [countNl_append, countNl_lit1A, countNl_lit1B]
        have hcr : countNl r =
            1 + countNl (r0.takeWhile (fun c => c ≠ '\x7d')) := by
          rw [← hr]
          simp [countNl_append, countNl_lit1A, countNl_lit1B, countNl_nlHead]
        have hls : s.length = lit1A.length +
            ((r0.takeWhile (fun c => c ≠ '\x7d')).length +
              (lit1B.length + rest.length)) := by
          rw [hs]; simp [List.length_append]
        have hpos : 0 < lit1A.length := by decide
        exact ⟨by omega, by omega⟩

theorem match2_spec : MSpec match2 := by
  intro s r rest h
  simp only [match2] at h
  cases h0 : stripPre lit2A s with
  | none => rw [h0] at h; simp at h
  | some r0 =>
    rw [h0] at h
    simp only at h
    split at h
    case isFalse => simp at h
    case isTrue hc =>
      cases h1 : stripPre lit1B (r0.dropWhile (fun c => c ≠ '\x7d')) with
      | none => rw [h1] at h; simp at h
      | some rest' =>
        rw [h1] at h
        simp only [Option.some.injEq, Prod.mk.injEq] at h
        obtain ⟨hr, hrest⟩ := h
        have e1 : s = lit2A ++ r0 := stripPre_eq _ _ _ h0
        have e3 : r0.dropWhile (fun c => c ≠ '\x7d') = lit1B ++ rest' :=
          stripPre_eq _ _ _ h1
        have hs : s = lit2A ++
            (r0.takeWhile (fun c => c ≠ '\x7d') ++ (lit1B ++ rest)) := by
          rw [e1]
          congr 1
          rw [← hrest, ← e3]
          exact (List.takeWhile_append_dropWhile _ _).symm
        have hcs : countNl s =
            countNl (r0.takeWhile (fun c => c ≠ '\x7d')) + countNl rest := by
          rw [hs]
          simp [countNl_append, countNl_lit2A, countNl_lit1B]
        have hcr : countNl r =
            1 + countNl (r0.takeWhile (fun c => c ≠ '\x7d')) := by
          rw [← hr]
          simp [countNl_append, countNl_lit2A, countNl_lit1B, countNl_nlHead]
        have hls : s.length = lit2A.length +
            ((r0.takeWhile (fun c => c ≠ '\x7d')).length +
              (lit1B.length + rest.length)) := by
          rw [hs]; simp [List.length_append]
        have hpos : 0 < lit2A.length := by decide
        exact ⟨by omega, by omega⟩

theorem lastFit_le_and_beg (pat r0 : List Char) :
    ∀ k i, lastFit pat r0 k = some i →
      i ≤ k ∧ begWith pat (r0.drop i) = true := by
  intro k
  induction k with
  | zero =>
    intro i h
    simp only [lastFit] at h
    split at h
    case isTrue hb =>
      simp only [Option.some.injEq] at h
      subst h; simpa using hb
    case isFalse => simp at h
  | succ k ih =>
    intro i h
    simp only [lastFit] at h
    split at h
    case isTrue hb =>
      simp only [Option.some.injEq] at h
      subst h; exact ⟨le_rfl, hb⟩
    case isFalse =>
      obtain ⟨h1, h2⟩ := ih i h
      exact ⟨Nat.le_succ_of_le h1, h2⟩

/-- Elements of the newline-free line prefix used by patterns 3 and 4
contribute no newline. -/
theorem countNl_take_of_le_line (r0 : List Char) (i : Nat)
    (hi : i ≤ (r0.takeWhile (fun c => c ≠ '\n')).length) :
    countNl (r0.take i) = 0 := by
  obtain ⟨u, hu⟩ := List.takeWhile_prefix (l := r0) (p := fun c => c ≠ '\n')
  have htake : r0.take i = (r0.takeWhile (fun c => c ≠ '\n')).take i := by
    conv_lhs => rw [← hu]
    rw [List.take_append_eq_append_take]
    have h0 : i - (r0.takeWhile (fun c => c ≠ '\n')).length = 0 := by omega
    rw [h0, List.take_zero, List.append_nil]
  rw [htake, countNl]
  rw [List.countP_eq_zero]
  intro a ha
  have ha2 : a ∈ r0.takeWhile (fun c => c ≠ '\n') :=
    List.take_subset _ _ ha
  have := List.mem_takeWhile_imp ha2
  simpa using this

theorem match3_spec : MSpec match3 := by
  intro s r rest h
  simp only [match3] at h
  cases h0 : stripPre lit3A s with
  | none => rw [h0] at h; simp at h
  | some r0 =>
    rw [h0] at h
    simp only at h
    cases h1 : lastFit lit3B r0 (r0.takeWhile (fun c => c ≠ '\n')).length with
    | none => rw [h1] at h; simp at h
    | some i =>
      rw [h1] at h
      simp only [Option.some.injEq, Prod.mk.injEq] at h
      obtain ⟨hr, hrest⟩ := h
      obtain ⟨hile, hbeg⟩ := lastFit_le_and_beg lit3B r0 _ i h1
      have e1 : s = lit3A ++ r0 := stripPre_eq _ _ _ h0
      obtain ⟨r', hsp⟩ := Option.isSome_iff_exists.mp (by simpa [begWith] using hbeg)
      have e2 : r0.drop i = lit3B ++ r' := stripPre_eq _ _ _ hsp
      have e3 : r' = r0.drop (i + lit3B.length) := by
        have : (r0.drop i).drop lit3B.length = r' := by
          rw [e2]; exact List.drop_left _ _
        rw [← this, List.drop_drop, Nat.add_comm]
      have e4 : r0 = r0.take i ++ (lit3B ++ rest) := by
        rw [← hrest, ← e3, ← e2, List.take_append_drop]
      have hs : s = lit3A ++ (r0.take i ++ (lit3B ++ rest)) := by
        rw [e1, ← e4]
      have hcs : countNl s = countNl rest := by
        rw [hs]
        simp [countNl_append, countNl_lit3A, countNl_lit3B,
          countNl_take_of_le_line r0 i hile]
      have hcr : countNl r = 1 := by rw [← hr]; exact countNl_repl3
      have hls : s.length = lit3A.length +
          ((r0.take i).length + (lit3B.length + rest.length)) := by
        rw [hs]; simp [List.length_append]
      have hpos : 0 < lit3A.length := by decide
      exact ⟨by omega, by omega⟩

theorem match4_spec : MSpec match4 := by
  intro s r rest h
  simp only [match4] at h
  cases h0 : stripPre lit4A s with
  | none => rw [h0] at h; simp at h
  | some r0 =>
    rw [h0] at h
    simp only at h
    cases h1 : lastFit lit4B r0 (r0.takeWhile (fun c => c ≠ '\n')).length with
    | none => rw [h1] at h; simp at h
    | some i =>
      rw [h1] at h
      simp only [Option.some.injEq, Prod.mk.injEq] at h
      obtain ⟨hr, hrest⟩ := h
      obtain ⟨hile, hbeg⟩ := lastFit_le_and_beg lit4B r0 _ i h1
      have e1 : s = lit4A ++ r0 := stripPre_eq _ _ _ h0
      obtain ⟨r', hsp⟩ := Option.isSome_iff_exists.mp (by simpa [begWith] using hbeg)
      have e2 : r0.drop i = lit4B ++ r' := stripPre_eq _ _ _ hsp
      have e3 : r' = r0.drop (i + lit4B.length) := by
        have : (r0.drop i).drop lit4B.length = r' := by
          rw [e2]; exact List.drop_left _ _
        rw [← this, List.drop_drop, Nat.add_comm]
      have e4 : r0 = r0.take i ++ (lit4B ++ rest) := by
        rw [← hrest, ← e3, ← e2, List.take_append_drop]
      have hs : s = lit4A ++ (r0.take i ++ (lit4B ++ rest)) := by
        rw [e1, ← e4]
      have hcs : countNl s = countNl rest := by
        rw [hs]
        simp [countNl_append, countNl_lit4A, countNl_lit4B,
          countNl_take_of_le_line r0 i hile]
      have hcr : countNl r = 1 := by rw [← hr]; exact countNl_repl4
      have hls : s.length = lit4A.length +
          ((r0.take i).length + (lit4B.length + rest.length)) := by
        rw [hs]; simp [List.length_append]
      have hpos : 0 < lit4A.length := by decide
      exact ⟨by omega, by omega⟩

theorem shrink1 : ∀ s r rest, match1 s = some (r, rest) →
    rest.length < s.length := fun s r rest h => (match1_spec s r rest h).1

theorem shrink2 : ∀ s r rest, match2 s = some (r, rest) →
    rest.length < s.length := fun s r rest h => (match2_spec s r rest h).1

theorem shrink3 : ∀ s r rest, match3 s = some (r, rest) →
    rest.length < s.length := fun s r rest h => (match3_spec s r rest h).1

theorem shrink4 : ∀ s r rest, match4 s = some (r, rest) →
    rest.length < s.length := fun s r rest h => (match4_spec s r rest h).1

theorem stripPre_none_of_clash :
    ∀ lit d : List Char, litClash lit d = true →
      ∀ x, stripPre lit (d ++ x) = none := by
  intro lit
  induction lit with
  | nil => intro d h; simp [litClash] at h
  | cons a as ih =>
    intro d h x
    cases d with
    | nil => simp [litClash] at h
    | cons b bs =>
      simp only [litClash, Bool.or_eq_true] at h
      rcases h with h | h
      · have hab : ¬a = b := by simpa using h
        simp [stripPre, hab]
      · by_cases hab : a = b
        · subst hab
          simpa [stripPre] using ih bs h x
        · simp [stripPre, hab]

theorem subst_append_skip
    (m : List Char → Option (List Char × List Char)) (lit : List Char)
    (hhead : ∀ s, stripPre lit s = none → m s = none) :
    ∀ A x : List Char, allClash lit A = true →
      subst m (A ++ x) = A ++ subst m x := by
  intro A
  induction A with
  | nil => intro x _; rfl
  | cons a A' ih =>
    intro x h
    simp only [allClash, Bool.and_eq_true] at h
    have hnone : m ((a :: A') ++ x) = none := by
      apply hhead
      have := stripPre_none_of_clash lit (a :: A') h.1 x
      simpa using this
    calc subst m ((a :: A') ++ x)
        = a :: subst m (A' ++ x) := subst_cons_none hnone
      _ = a :: (A' ++ subst m x) := by rw [ih x h.2]
      _ = (a :: A') ++ subst m x := rfl

theorem match1_head : ∀ s, stripPre lit1A s = none → match1 s = none := by
  intro s h; simp [match1, h]

theorem match2_head : ∀ s, stripPre lit2A s = none → match2 s = none := by
  intro s h; simp [match2, h]

theorem match3_head : ∀ s, stripPre lit3A s = none → match3 s = none := by
  intro s h; simp [match3, h]

theorem match4_head : ∀ s, stripPre lit4A s = none → match4 s = none := by
  intro s h; simp [match4, h]

theorem applySubs_id_of_not_hasAny {c : List Char}
    (h : hasAny c = false) : applySubs c = c := by
  simp only [hasAny, hasM1, hasM2, hasM3, hasM4, Bool.or_eq_false_iff] at h
  obtain ⟨⟨⟨e1, e2⟩, e3⟩, e4⟩ := h
  unfold applySubs
  rw [subst_id_of_no_match e1, subst_id_of_no_match e2,
    subst_id_of_no_match e3, subst_id_of_no_match e4]

theorem applySubs_ne_of_hasAny {c : List Char}
    (h : hasAny c = true) : applySubs c ≠ c := by
  have key : countNl c < countNl (applySubs c) := by
    unfold applySubs
    by_cases h1 : hasM1 c = true
    · have g1 := countNl_subst_gt match1_spec c (by simpa [hasM1] using h1)
      have g2 := countNl_subst_ge match2_spec (subst match1 c)
      have g3 := countNl_subst_ge match3_spec (subst match2 (subst match1 c))
      have g4 := countNl_subst_ge match4_spec
        (subst match3 (subst match2 (subst match1 c)))
      omega
    · have e1 : subst match1 c = c :=
        subst_id_of_no_match (by simpa [hasM1] using h1)
      rw [e1]
      by_cases h2 : hasM2 c = true
      · have g2 := countNl_subst_gt match2_spec c (by simpa [hasM2] using h2)
        have g3 := countNl_subst_ge match3_spec (subst match2 c)
        have g4 := countNl_subst_ge match4_spec (subst match3 (subst match2 c))
        omega
      · have e2 : subst match2 c = c :=
          subst_id_of_no_match (by simpa [hasM2] using h2)
        rw [e2]
        by_cases h3 : hasM3 c = true
        · have g3 := countNl_subst_gt match3_spec c (by simpa [hasM3] using h3)
          have g4 := countNl_subst_ge match4_spec (subst match3 c)
          omega
        · have e3 : subst match3 c = c :=
            subst_id_of_no_match (by simpa [hasM3] using h3)
          rw [e3]
          have h4 : hasM4 c = true := by
            simp only [hasAny, Bool.or_eq_true] at h
            rcases h with ((g | g) | g) | g
            · exact absurd g h1
            · exact absurd g h2
            · exact absurd g h3
            · exact g
          exact countNl_subst_gt match4_spec c (by simpa [hasM4] using h4)
  intro heq
  have := congrArg countNl heq
  omega

theorem bak_ne (p : String) : ¬(p ++ ".bak" = p) := by
  intro h
  have hl := congrArg String.length h
  rw [String.length_append] at hl
  have : (".bak" : String).length = 4 := rfl
  omega

/-- C1 counterexample: the four substitutions are not idempotent.  On the
content produced by one application (a correctly commented import), a
second application changes the text again, because the unanchored pattern
still matches inside the `// `-commented line. -/
theorem c1_counterexample : applySubs (applySubs ex1) ≠ applySubs ex1 := by
  decide

/-- C1 (amended): a second application of the four substitutions changes
an already-commented file again — each regex is unanchored and re-matches
inside the commented line, prefixing it with another explanatory comment
and `// ` — so a re-run of `fix_file` rewrites the file once more and
overwrites the `.bak` backup with the once-commented text. -/
theorem c1_amended :
    applySubs ex1 = ex1out ∧
    applySubs ex1out = ex1out2 ∧
    (fixFile fsEx1 pathEx).2.1 = true ∧
    (fixFile fsEx1 pathEx).1 pathEx = some ex1out2 ∧
    (fixFile fsEx1 pathEx).1 (pathEx ++ ".bak") = some ex1out := by
  decide

/-- `fix_file` on an existing file whose text the substitutions change:
backup written first, then the original overwritten, and `True` returned. -/
theorem fixFile_changed (fs : Fs) (p : String) (c : List Char)
    (h : fs p = some c) (hne : applySubs c ≠ c) :
    fixFile fs p =
      (upd (upd fs (p ++ ".bak") c) p (applySubs c), true, Msg.fixedBak) := by
  simp [fixFile, h, hne]

/-- C2 (amended): for every existing file in which at least one of the
four patterns matches, `fix_file` writes a byte-identical backup of the
pre-run content at `path + ".bak"`, overwrites the original path with the
substituted text, and returns `True`.  (The further claim that the
rewritten text no longer contains an active form of a matched import is
refuted by `c2_counterexample`.) -/
theorem c2_amended (fs : Fs) (p : String) (c : List Char)
    (h : fs p = some c) (hm : hasAny c = true) :
    (fixFile fs p).1 (p ++ ".bak") = some c ∧
    (fixFile fs p).1 p = some (applySubs c) ∧
    (fixFile fs p).2.1 = true := by
  have hne : applySubs c ≠ c := applySubs_ne_of_hasAny hm
  rw [fixFile_changed fs p c h hne]
  refine ⟨?_, ?_, rfl⟩
  · show upd (upd fs (p ++ ".bak") c) p (applySubs c) (p ++ ".bak") = some c
    simp [upd, bak_ne p]
  · show upd (upd fs (p ++ ".bak") c) p (applySubs c) p = some (applySubs c)
    simp [upd]

theorem c2_amended_witness :
    fsEx pathEx = some ex1 ∧ hasAny ex1 = true ∧
    ((fixFile fsEx pathEx).1 (pathEx ++ ".bak") = some ex1 ∧
     (fixFile fsEx pathEx).1 pathEx = some (applySubs ex1) ∧
     (fixFile fsEx pathEx).2.1 = true) :=
  ⟨by decide, by decide, c2_amended fsEx pathEx ex1 (by decide) (by decide)⟩

/-- C2 counterexample: a file where a pattern matches, is rewritten and
backed up, and yet the rewritten content still contains the active
(uncommented, line-initial) form of a matched import: the inner import
swallowed by the multi-line capture reappears at a line start without
`// `. -/
theorem c2_counterexample :
    hasAny adv5 = true ∧
    (fixFile fsAdv pathEx).2.1 = true ∧
    (fixFile fsAdv pathEx).1 pathEx = some (applySubs adv5) ∧
    containsActive (applySubs adv5) = true := by
  decide

/-- C3 counterexample: for a relative path three levels deep the import is
not preserved verbatim — the replacement hard-codes `../../`, so the
original statement no longer occurs in the output. -/
theorem c3_counterexample :
    applySubs in3three = repl3 ∧
    occursIn in3three (applySubs in3three) = false := by
  decide

/-- C3 (amended): any depth of relative path matching pattern 3 is
rewritten to the same fixed two-line text whose import path is normalised
to `../../`; for the concrete two-level one-line file the output is
exactly the explanatory comment plus the `// `-commented original import,
and the backup holds the original single line. -/
theorem c3_amended :
    applySubs in3two = repl3 ∧
    applySubs in3three = repl3 ∧
    (fixFile fs3 pathEx).1 pathEx = some repl3 ∧
    (fixFile fs3 pathEx).1 (pathEx ++ ".bak") = some in3two ∧
    (fixFile fs3 pathEx).2.1 = true := by
  decide

/-- C6: for a path not present on disk, `fix_file` reports not-found,
returns `False`, and leaves the file system untouched — no backup, no
write. -/
theorem c6_not_found (fs : Fs) (p : String) (h : fs p = none) :
    fixFile fs p = (fs, false, Msg.notFound) := by
  simp [fixFile, h]

theorem c6_not_found_witness :
    fsEmpty pathEx = none ∧
    fixFile fsEmpty pathEx = (fsEmpty, false, Msg.notFound) :=
  ⟨rfl, c6_not_found fsEmpty pathEx rfl⟩

/-- C7: for an existing file in which none of the four patterns matches,
`fix_file` reports no-changes, returns `False`, and leaves the file system
untouched — the content stays byte-identical and no backup appears. -/
theorem c7_no_match (fs : Fs) (p : String) (c : List Char)
    (h : fs p = some c) (hn : hasAny c = false) :
    fixFile fs p = (fs, false, Msg.noChanges) := by
  simp [fixFile, h, applySubs_id_of_not_hasAny hn]

theorem c7_no_match_witness :
    fsPlain pathEx = some exPlain ∧ hasAny exPlain = false ∧
    fixFile fsPlain pathEx = (fsPlain, false, Msg.noChanges) :=
  ⟨by decide, by decide, c7_no_match fsPlain pathEx exPlain (by decide) (by decide)⟩

/-- `takeWhile` passes over a block all of whose elements satisfy the
predicate. -/
theorem takeWhile_append_all {p : Char → Bool} {d : List Char}
    (hd : ∀ c ∈ d, p c = true) (e : List Char) :
    (d ++ e).takeWhile p = d ++ e.takeWhile p := by
  induction d with
  | nil => simp
  | cons a t ih =>
    have ha : p a = true := hd a (by simp)
    simp only [List.cons_append, List.takeWhile_cons, ha, if_true]
    rw [ih (fun c hc => hd c (by simp [hc]))]

/-- `dropWhile` passes over a block all of whose elements satisfy the
predicate. -/
theorem dropWhile_append_all {p : Char → Bool} {d : List Char}
    (hd : ∀ c ∈ d, p c = true) (e : List Char) :
    (d ++ e).dropWhile p = e.dropWhile p := by
  induction d with
  | nil => simp
  | cons a t ih =>
    have ha : p a = true := hd a (by simp)
    simp only [List.cons_append, List.dropWhile_cons, ha, if_true]
    exact ih (fun c hc => hd c (by simp [hc]))

theorem m1_stmt5 (x : List Char) : match1 (stmt5 ++ x) = some (pre5, x) := by
  have hsplit : stmt5 ++ x = lit1A ++ (cap5 ++ (lit1B ++ x)) := by
    have h : stmt5 = lit1A ++ (cap5 ++ lit1B) := by decide
    rw [h]; simp [List.append_assoc]
  have hB : lit1B ++ x = '\x7d' :: (lit1Bt ++ x) := by
    have h : lit1B = '\x7d' :: lit1Bt := by decide
    rw [h]; rfl
  have ht : (cap5 ++ (lit1B ++ x)).takeWhile (fun c => c ≠ '\x7d') = cap5 := by
    rw [takeWhile_append_all (by decide), hB]
    simp [List.takeWhile_cons]
  have hdp : (cap5 ++ (lit1B ++ x)).dropWhile (fun c => c ≠ '\x7d') =
      lit1B ++ x := by
    rw [dropWhile_append_all (by decide), hB]
    simp [List.dropWhile_cons]
  rw [hsplit]
  simp only [match1, stripPre_self]
  rw [ht, hdp]
  rw [if_pos (by decide), stripPre_self]
  have hrepl : nlHead ++ lit1A ++ cap5 ++ lit1B = pre5 := by decide
  rw [hrepl]

/-- C5 counterexample: an input that contains the statement
`import \x7b Foo, Bar \x7d from '@/modules/exchanges';` verbatim — even at a
line start — whose output does not contain the commented statement at
all: the statement was swallowed by a larger pattern-1 match whose
multi-line symbol list starts one line earlier. -/
theorem c5_counterexample :
    occursIn stmt5 adv5 = true ∧
    occursIn ("// ".data ++ stmt5) (applySubs adv5) = false := by
  decide

/-- C5 (amended): whenever the statement is matched as a whole by
pattern 1 — in particular for every file that begins with it — the output
is the explanatory comment line followed by `// ` plus the statement with
the symbol list `Foo, Bar` preserved verbatim, and the rest of the file is
processed independently.  An occurrence embedded in a larger match's
symbol list is not preserved this way (`c5_counterexample`). -/
theorem c5_amended (x : List Char) :
    applySubs (stmt5 ++ x) = pre5 ++ applySubs x := by
  unfold applySubs
  rw [subst_cons_some shrink1 (m1_stmt5 x)]
  rw [subst_append_skip match2 lit2A match2_head pre5 _ (by decide)]
  rw [subst_append_skip match3 lit3A match3_head pre5 _ (by decide)]
  rw [subst_append_skip match4 lit4A match4_head pre5 _ (by decide)]

/-- The capture run of a multi-line pattern-1/2 import:
`a`, a newline, `b`, and the space before the closing brace. -/
theorem takeWhile_multiline {a b : List Char}
    (ha : '\x7d' ∉ a) (hb : '\x7d' ∉ b) :
    (a ++ '\n' :: (b ++ ' ' :: lit1B)).takeWhile (fun c => c ≠ '\x7d') =
      a ++ '\n' :: (b ++ [' ']) := by
  have hpa : ∀ c ∈ a, decide (c ≠ '\x7d') = true :=
    fun c hc => decide_eq_true (fun e : c = '\x7d' => ha (e ▸ hc))
  have hpb : ∀ c ∈ b, decide (c ≠ '\x7d') = true :=
    fun c hc => decide_eq_true (fun e : c = '\x7d' => hb (e ▸ hc))
  rw [takeWhile_append_all hpa]
  have h1 : ('\n' :: (b ++ ' ' :: lit1B)).takeWhile (fun c => c ≠ '\x7d') =
      '\n' :: ((b ++ ' ' :: lit1B).takeWhile (fun c => c ≠ '\x7d')) := by
    rw [List.takeWhile_cons, if_pos (by decide)]
  rw [h1, takeWhile_append_all hpb]
  have h2 : (' ' :: lit1B).takeWhile (fun c => c ≠ '\x7d') =
      ' ' :: (lit1B.takeWhile (fun c => c ≠ '\x7d')) := by
    rw [List.takeWhile_cons, if_pos (by decide)]
  rw [h2]
  have h3 : lit1B.takeWhile (fun c => c ≠ '\x7d') = [] := by decide
  rw [h3]

/-- The remainder after the capture run of a multi-line import. -/
theorem dropWhile_multiline {a b : List Char}
    (ha : '\x7d' ∉ a) (hb : '\x7d' ∉ b) :
    (a ++ '\n' :: (b ++ ' ' :: lit1B)).dropWhile (fun c => c ≠ '\x7d') =
      lit1B := by
  have hpa : ∀ c ∈ a, decide (c ≠ '\x7d') = true :=
    fun c hc => decide_eq_true (fun e : c = '\x7d' => ha (e ▸ hc))
  have hpb : ∀ c ∈ b, decide (c ≠ '\x7d') = true :=
    fun c hc => decide_eq_true (fun e : c = '\x7d' => hb (e ▸ hc))
  rw [dropWhile_append_all hpa]
  have h1 : ('\n' :: (b ++ ' ' :: lit1B)).dropWhile (fun c => c ≠ '\x7d') =
      (b ++ ' ' :: lit1B).dropWhile (fun c => c ≠ '\x7d') := by
    rw [List.dropWhile_cons, if_pos (by decide)]
  rw [h1, dropWhile_append_all hpb]
  have h2 : (' ' :: lit1B).dropWhile (fun c => c ≠ '\x7d') =
      lit1B.dropWhile (fun c => c ≠ '\x7d') := by
    rw [List.dropWhile_cons, if_pos (by decide)]
  rw [h2]
  have h3 : lit1B.dropWhile (fun c => c ≠ '\x7d') = lit1B := by decide
  rw [h3]

/-- The guard of patterns 1 and 2 accepts every multi-line capture run:
it is at least two characters long and ends in the mandatory space. -/
theorem guard_multiline (a b : List Char) :
    (decide (2 ≤ (a ++ '\n' :: (b ++ [' '])).length) &&
      ((a ++ '\n' :: (b ++ [' '])).getLast? == some ' ')) = true := by
  rw [Bool.and_eq_true]
  constructor
  · rw [decide_eq_true_eq]
    simp [List.length_append]
    omega
  · have h : a ++ '\n' :: (b ++ [' ']) = (a ++ '\n' :: b) ++ [' '] := by
      simp
    rw [h, List.getLast?_concat]
    rfl

/-- C10: the class `[^}]+` matches newline characters, so a named import
from `@/modules/exchanges` whose symbol list spans two lines is matched by
patterns 1 and 2; the replacement prepends the explanatory comment and
`// ` before the first line only, substituting the captured multi-line
symbol list verbatim (embedded newline included), so the continuation line
`b ++ " \x7d from ..."` reappears in the output exactly as it was, without a
`// ` prefix. -/
theorem c10_multiline (a b : List Char)
    (ha : '\x7d' ∉ a) (hb : '\x7d' ∉ b) :
    match1 (lit1A ++ (a ++ '\n' :: (b ++ ' ' :: lit1B))) =
      some (nlHead ++ (lit1A ++ (a ++ '\n' :: (b ++ ' ' :: lit1B))), []) ∧
    subst match1 (lit1A ++ (a ++ '\n' :: (b ++ ' ' :: lit1B))) =
      nlHead ++ (lit1A ++ (a ++ '\n' :: (b ++ ' ' :: lit1B))) ∧
    match2 (lit2A ++ (a ++ '\n' :: (b ++ ' ' :: lit1B))) =
      some (nlHead ++ (lit2A ++ (a ++ '\n' :: (b ++ ' ' :: lit1B))), []) ∧
    subst match2 (lit2A ++ (a ++ '\n' :: (b ++ ' ' :: lit1B))) =
      nlHead ++ (lit2A ++ (a ++ '\n' :: (b ++ ' ' :: lit1B))) := by
  have hm1 : match1 (lit1A ++ (a ++ '\n' :: (b ++ ' ' :: lit1B))) =
      some (nlHead ++ (lit1A ++ (a ++ '\n' :: (b ++ ' ' :: lit1B))), []) := by
    simp only [match1, stripPre_self]
    rw [takeWhile_multiline ha hb, dropWhile_multiline ha hb]
    rw [if_pos (guard_multiline a b)]
    have : stripPre lit1B lit1B = some [] := by
      have h := stripPre_self lit1B []
      simpa using h
    rw [this]
    have hshape : nlHead ++ lit1A ++ (a ++ '\n' :: (b ++ [' '])) ++ lit1B =
        nlHead ++ (lit1A ++ (a ++ '\n' :: (b ++ ' ' :: lit1B))) := by
      simp
    rw [hshape]
  have hm2 : match2 (lit2A ++ (a ++ '\n' :: (b ++ ' ' :: lit1B))) =
      some (nlHead ++ (lit2A ++ (a ++ '\n' :: (b ++ ' ' :: lit1B))), []) := by
    simp only [match2, stripPre_self]
    rw [takeWhile_multiline ha hb, dropWhile_multiline ha hb]
    rw [if_pos (guard_multiline a b)]
    have : stripPre lit1B lit1B = some [] := by
      have h := stripPre_self lit1B []
      simpa using h
    rw [this]
    have hshape : nlHead ++ lit2A ++ (a ++ '\n' :: (b ++ [' '])) ++ lit1B =
        nlHead ++ (lit2A ++ (a ++ '\n' :: (b ++ ' ' :: lit1B))) := by
      simp
    rw [hshape]
  refine ⟨hm1, ?_, hm2, ?_⟩
  · rw [subst_cons_some shrink1 hm1, subst_nil, List.append_nil]
  · rw [subst_cons_some shrink2 hm2, subst_nil, List.append_nil]

theorem c10_multiline_witness :
    ('\x7d' ∉ cap10a ∧ '\x7d' ∉ cap10b) ∧
    (match1 (lit1A ++ (cap10a ++ '\n' :: (cap10b ++ ' ' :: lit1B))) =
      some (nlHead ++ (lit1A ++ (cap10a ++ '\n' :: (cap10b ++ ' ' :: lit1B))), []) ∧
    subst match1 (lit1A ++ (cap10a ++ '\n' :: (cap10b ++ ' ' :: lit1B))) =
      nlHead ++ (lit1A ++ (cap10a ++ '\n' :: (cap10b ++ ' ' :: lit1B))) ∧
    match2 (lit2A ++ (cap10a ++ '\n' :: (cap10b ++ ' ' :: lit1B))) =
      some (nlHead ++ (lit2A ++ (cap10a ++ '\n' :: (cap10b ++ ' ' :: lit1B))), []) ∧
    subst match2 (lit2A ++ (cap10a ++ '\n' :: (cap10b ++ ' ' :: lit1B))) =
      nlHead ++ (lit2A ++ (cap10a ++ '\n' :: (cap10b ++ ' ' :: lit1B)))) :=
  ⟨⟨by decide, by decide⟩, c10_multiline cap10a cap10b (by decide) (by decide)⟩

set_option maxRecDepth 20000 in
/-- C9: after patch C has been applied, the guard substring
`return createWebSocketAdapter(exchangeId, config);` is still present —
inside the trailing `// return ...` comment — so a second run of
`fix_special_cases` re-enters the patch-C branch: its `replace` finds no
target and the content is unchanged, but the file is written again with
identical bytes and the success message is printed again (the `true`
flag). -/
theorem c9_patchC_rerun :
    (fixSpecialCases fsC9).1 pathMD = some c9md1 ∧
    occursIn gC c9md1 = true ∧
    occursIn oldC c9md1 = false ∧
    (fixSpecialCases ((fixSpecialCases fsC9).1)).2.2.2 = true ∧
    (fixSpecialCases ((fixSpecialCases fsC9).1)).1 pathMD = some c9md1 := by
  decide

set_option maxRecDepth 40000 in
/-- C4 counterexample: after a successful first run (all three patches
applied), it is not true that every guard condition is false on the
second run — patch C's guard substring is still present inside the
trailing comment, so its branch fires again (write and success message). -/
theorem c4_counterexample :
    (fixSpecialCases fsC4).2 = (true, true, true) ∧
    (fixSpecialCases fsC4).1 pathMD = some c4md1 ∧
    occursIn gC c4md1 = true ∧
    (fixSpecialCases fsC4a).2.2.2 = true := by
  decide

set_option maxRecDepth 40000 in
/-- C4 (amended): a second run of `fix_special_cases` after a successful
first run changes no file's content: patches A and B are skipped because
their guards are false the second time, while patch C's guard remains true
but its replacement finds no target and rewrites the file with identical
bytes; in particular the pipeline file, already containing
`function getDefaultWebSocketConfig`, receives no duplicate stub even
though its commented-out import marker is still present. -/
theorem c4_amended :
    (fixSpecialCases fsC4).1 pathMD = some c4md1 ∧
    (fixSpecialCases fsC4).1 pathPL = some c4pl1 ∧
    (fixSpecialCases fsC4a).1 pathMD = some c4md1 ∧
    (fixSpecialCases fsC4a).1 pathPL = some c4pl1 ∧
    (fixSpecialCases fsC4a).2.1 = false ∧
    (fixSpecialCases fsC4a).2.2.1 = false ∧
    occursIn gB1 c4pl1 = true ∧
    countOcc gB2 c4pl1 = 1 := by
  decide

/-- `fix_file` touches no path other than its argument and that
argument's `.bak` sibling. -/
theorem fixFile_frame (fs : Fs) (p q : String)
    (hq1 : ¬q = p) (hq2 : ¬q = p ++ ".bak") :
    (fixFile fs p).1 q = fs q := by
  cases h : fs p with
  | none => simp [fixFile, h]
  | some c =>
    by_cases he : applySubs c = c
    · simp [fixFile, h, he]
    · simp [fixFile, h, he, upd, hq1, hq2]

/-- The boolean `fix_file` returns depends only on the content stored at
its path. -/
theorem fixFile_flag_congr (fs fs' : Fs) (p : String) (h : fs p = fs' p) :
    (fixFile fs p).2.1 = (fixFile fs' p).2.1 := by
  cases hc : fs p with
  | none =>
    have hc' : fs' p = none := by rw [← h]; exact hc
    simp [fixFile, hc, hc']
  | some c =>
    have hc' : fs' p = some c := by rw [← h]; exact hc
    by_cases he : applySubs c = c <;> simp [fixFile, hc, hc', he]

/-- When no later path in the list collides with an earlier path or its
`.bak` sibling, the count accumulated by the sequential fold equals the
count of paths whose `fix_file` outcome is `True` against the initial
file system: the per-file runs are independent. -/
theorem runBulk_count :
    ∀ (L : List String) (fs : Fs),
      L.Pairwise (fun p q => ¬q = p ∧ ¬q = p ++ ".bak") →
      (runBulk fs L).2 = L.countP (fun p => (fixFile fs p).2.1) := by
  intro L
  induction L with
  | nil => intro fs _; simp [runBulk]
  | cons p L ih =>
    intro fs hpw
    rw [List.pairwise_cons] at hpw
    obtain ⟨hhead, htail⟩ := hpw
    have hcong : ∀ q ∈ L,
        (fixFile (fixFile fs p).1 q).2.1 = (fixFile fs q).2.1 := by
      intro q hq
      apply fixFile_flag_congr
      exact fixFile_frame fs p q (hhead q hq).1 (hhead q hq).2
    calc (runBulk fs (p :: L)).2
        = (if (fixFile fs p).2.1 then 1 else 0) +
            (runBulk (fixFile fs p).1 L).2 := rfl
      _ = (if (fixFile fs p).2.1 then 1 else 0) +
            L.countP (fun q => (fixFile (fixFile fs p).1 q).2.1) := by
          rw [ih _ htail]
      _ = (if (fixFile fs p).2.1 then 1 else 0) +
            L.countP (fun q => (fixFile fs q).2.1) := by
          rw [List.countP_congr (fun q hq => by rw [hcong q hq])]
      _ = (p :: L).countP (fun q => (fixFile fs q).2.1) := by
          rw [List.countP_cons]
          cases (fixFile fs p).2.1
          · simp
          · simp
            omega

set_option maxRecDepth 40000 in
/-- C8: `main` processes every path of the fixed list in order and the
summary count it prints equals the number of paths for which `fix_file`
returned `True` — equivalently, since no listed path collides with
another listed path or its `.bak` sibling, the number of files actually
changed as judged against the initial file system; after the bulk pass it
invokes `fix_special_cases` on the resulting state.  The statement
quantifies over every initial file system, including ones with missing
files: a missing file contributes `False` and the fold continues, so no
missing file aborts the run. -/
theorem c8_main_driver (fs : Fs) :
    (runMain fs).2 = FILES_TO_FIX.countP (fun p => (fixFile fs p).2.1) ∧
    (runMain fs).1 = (fixSpecialCases (runBulk fs FILES_TO_FIX).1).1 :=
  ⟨runBulk_count FILES_TO_FIX fs (by decide), rfl⟩

end FixImports
